import Mathlib

/- Shallow embedding of src/listener.c (the watchman client listener):
   the jansson document subset the listener manipulates, response
   construction, clockspec parsing, command dispatch, the log
   broadcast, and the per-client outbound response queue. -/

set_option maxHeartbeats 1000000

/-- Document model used by the listener (jansson subset: objects,
arrays, strings, integers, booleans, null). -/
inductive Json where
  | null
  | bool (b : Bool)
  | int (n : Int)
  | str (s : String)
  | arr (elems : List Json)
  | obj (fields : List (String × Json))

/-- Modelled from the spec: the server package version string.  The
header defining PACKAGE_VERSION is not part of src/; the exact value is
immaterial to every claim. -/
def PACKAGE_VERSION : String := "2.9"

/-- Replace-or-append of a key in an object field list (the
json_object_set semantics behind set_prop). -/
def setKey : List (String × Json) → String → Json → List (String × Json)
  | [], k, v => [(k, v)]
  | (k2, v2) :: rest, k, v =>
    if k2 = k then (k, v) :: rest else (k2, v2) :: setKey rest k v

/-- set_prop used throughout src/listener.c: set a key on an object. -/
def set_prop (j : Json) (k : String) (v : Json) : Json :=
  match j with
  | .obj l => .obj (setKey l k v)
  | other => other

/-- Lookup of a key in an object field list. -/
def lookupKey : List (String × Json) → String → Option Json
  | [], _ => none
  | (k2, v) :: rest, k => if k2 = k then some v else lookupKey rest k

/-- Lookup of a key in an object document. -/
def getProp (j : Json) (k : String) : Option Json :=
  match j with
  | .obj l => lookupKey l k
  | _ => none

/-- make_response (src/listener.c:18-25): a fresh object carrying
"version". -/
def make_response : Json := set_prop (.obj []) "version" (.str PACKAGE_VERSION)

/-- json_array_size: length of an array, 0 for any other document. -/
def json_array_size : Json → Nat
  | .arr l => l.length
  | _ => 0

/-- json_array_get: element of an array, none out of range or for a
non-array. -/
def json_array_get : Json → Nat → Option Json
  | .arr l, i => l[i]?
  | _, _ => none

/-- json_string_value: the string payload, none for a non-string. -/
def json_string_value : Json → Option String
  | .str s => some s
  | _ => none

/-- Modulus of the uint32_t tick counters. -/
def UINT32_MOD : Nat := 4294967296

/-- isdigit test for the scanf conversions in w_parse_clockspec. -/
def isDig (c : Char) : Bool := decide (48 ≤ c.toNat ∧ c.toNat ≤ 57)

/-- isspace (C locale) test for the scanf whitespace skip. -/
def isSpaceC (c : Char) : Bool := decide (c.toNat = 32 ∨ (9 ≤ c.toNat ∧ c.toNat ≤ 13))

/-- Whitespace skipped by a scanf numeric conversion. -/
def skipWS (l : List Char) : List Char := l.dropWhile isSpaceC

/-- Optional sign consumed by scanf %d and %u; returns (negative, rest). -/
def readSign (l : List Char) : Bool × List Char :=
  match l with
  | c :: rest => if c = '-' then (true, rest) else if c = '+' then (false, rest) else (false, l)
  | [] => (false, [])

/-- Maximal run of decimal digits, accumulating the value. -/
def readNat (acc : Nat) : List Char → Nat × List Char
  | [] => (acc, [])
  | c :: cs => if isDig c then readNat (10 * acc + (c.toNat - 48)) cs else (acc, c :: cs)

/-- Value of a %d conversion from sign and digit value. -/
def intOfSign (neg : Bool) (n : Nat) : Int := if neg then -(n : Int) else (n : Int)

/-- Value of a %u conversion stored into a uint32_t, from sign and digit
value. -/
def u32OfSign (neg : Bool) (n : Nat) : Nat :=
  if neg then (UINT32_MOD - n % UINT32_MOD) % UINT32_MOD else n % UINT32_MOD

/-- sscanf(str, "c:%d:%PRIu32", &pid, &ticks) == 2 from
src/listener.c:212: literal "c:", a %d conversion, a literal ":", a %u
conversion; trailing input is ignored by the == 2 test. -/
def parseClock (s : List Char) : Option (Int × Nat) :=
  match s with
  | 'c' :: ':' :: rest =>
    let r2 := readSign (skipWS rest)
    (match r2.2 with
     | c :: _ =>
       if isDig c then
         let rp := readNat 0 r2.2
         (match rp.2 with
          | ':' :: r4 =>
            let r6 := readSign (skipWS r4)
            (match r6.2 with
             | c2 :: _ =>
               if isDig c2 then
                 some (intOfSign r2.1 rp.1, u32OfSign r6.1 (readNat 0 r6.2).1)
               else none
             | [] => none)
          | _ => none)
       else none
     | [] => none)
  | _ => none

/-- struct w_clockspec_query (fields written by w_parse_clockspec). -/
structure ClockspecQuery where
  is_timestamp : Bool
  tv_sec : Int
  tv_usec : Int
  ticks : Nat
  is_fresh_instance : Bool

/-- The part of w_root_t that w_parse_clockspec touches: the uint32_t
tick counter and the cursor table. -/
structure Root where
  ticks : Nat
  cursors : String → Option Nat

/-- The str[0] == 'n' && str[1] == ':' test from src/listener.c:180. -/
def isCursorStr (l : List Char) : Bool :=
  match l with
  | 'n' :: ':' :: _ => true
  | _ => false

/-- ClockID arm of w_parse_clockspec (src/listener.c:212-231): on an
sscanf match, since->ticks receives the parsed value and
since->is_timestamp is cleared; a matching pid with ticks equal to the
root tick bumps the root tick; a foreign pid yields
is_fresh_instance=true and ticks=0.  On sscanf failure the function
returns false with since and root untouched. -/
def clockIdPath (this_pid : Int) (s : String) (since : ClockspecQuery) (root : Option Root) :
    Bool × ClockspecQuery × Option Root :=
  match parseClock s.data with
  | none => (false, since, root)
  | some (pid, tk) =>
    let s1 := { since with is_timestamp := false, ticks := tk }
    if pid = this_pid then
      match root with
      | some r =>
        if tk = r.ticks then (true, s1, some { r with ticks := (r.ticks + 1) % UINT32_MOD })
        else (true, s1, some r)
      | none => (true, s1, none)
    else
      (true, { s1 with is_fresh_instance := true, ticks := 0 }, root)

/-- w_parse_clockspec (src/listener.c:160-234).  getpid() is the
this_pid parameter; the w_root_t pointer is an Option Root; the result
is (return value, updated *since, updated root state).  An integer is a
timestamp; a string "n:..." with allow_cursor and a root takes the
cursor arm (lookup, then store the pre-incremented root tick against
the cursor name); otherwise the sscanf ClockID arm runs; any other
document fails. -/
def w_parse_clockspec (this_pid : Int) (root : Option Root) (value : Json)
    (since : ClockspecQuery) (allow_cursor : Bool) :
    Bool × ClockspecQuery × Option Root :=
  match value with
  | .int v => (true, { since with is_timestamp := true, tv_usec := 0, tv_sec := v }, root)
  | .str s =>
    (match root with
     | some r =>
       if allow_cursor && isCursorStr s.data then
         let fresh := (r.cursors s).isNone
         let tks := match r.cursors s with | none => 0 | some v => v % UINT32_MOD
         let newTicks := (r.ticks + 1) % UINT32_MOD
         (true,
          { since with is_timestamp := false, is_fresh_instance := fresh, ticks := tks },
          some { ticks := newTicks,
                 cursors := fun n => if n = s then some newTicks else r.cursors n })
       else clockIdPath this_pid s since (some r)
     | none => clockIdPath this_pid s since none)
  | _ => (false, since, root)

/-- C9: an integer clockspec is classified as a Timestamp: the call
succeeds with is_timestamp=true, tv_sec the integer value, tv_usec=0,
and the root state (ticks and cursors) is returned untouched. -/
theorem timestamp_classification (this_pid : Int) (root : Option Root) (v : Int)
    (since : ClockspecQuery) (allow_cursor : Bool) :
    w_parse_clockspec this_pid root (Json.int v) since allow_cursor
      = (true, { since with is_timestamp := true, tv_sec := v, tv_usec := 0 }, root) := rfl

/-- C10: a string beginning with "n:" is rejected outright when
allow_cursor is false or no root is supplied: the call returns false
and both the since struct and the root state are unchanged. -/
theorem cursor_rejected (this_pid : Int) (s : String) (since : ClockspecQuery)
    (allow_cursor : Bool) (root : Option Root)
    (hs : ∃ rest, s.data = 'n' :: ':' :: rest)
    (hno : allow_cursor = false ∨ root = none) :
    w_parse_clockspec this_pid root (Json.str s) since allow_cursor
      = (false, since, root) := by
  obtain ⟨rest, hd⟩ := hs
  have hpc : parseClock s.data = none := by rw [hd]; rfl
  cases root with
  | none => simp [w_parse_clockspec, clockIdPath, hpc]
  | some r =>
    rcases hno with h | h
    · subst h
      simp [w_parse_clockspec, clockIdPath, hpc]
    · exact absurd h (by simp)

/-- Witness for cursor_rejected at a concrete rejected cursor string. -/
theorem cursor_rejected_witness :
    w_parse_clockspec 0 (some ⟨7, fun _ => none⟩) (Json.str "n:foo")
        ⟨false, 0, 0, 0, false⟩ false
      = (false, ⟨false, 0, 0, 0, false⟩, some ⟨7, fun _ => none⟩) :=
  cursor_rejected 0 "n:foo" ⟨false, 0, 0, 0, false⟩ false (some ⟨7, fun _ => none⟩)
    ⟨['f', 'o', 'o'], rfl⟩ (Or.inl rfl)

/-- Document built by send_error_response (src/listener.c:93-107):
make_response() plus the formatted "error" string. -/
def error_response_doc (msg : String) : Json :=
  set_prop make_response "error" (Json.str msg)

/-- Modelled from the spec: the numeric log levels (off, error, debug)
come from watchman.h, which is not part of src/; off is the disabled
level and error/debug are increasing verbosity. -/
def W_LOG_OFF : Int := 0

/-- Modelled from the spec: the error log level (see W_LOG_OFF). -/
def W_LOG_ERR : Int := 1

/-- Modelled from the spec: the debug log level (see W_LOG_OFF). -/
def W_LOG_DBG : Int := 2

/-- The per-session state w_log_to_clients touches: the session log
level and the outbound queue, abstracted as the FIFO list of
(document, wake) pairs it will deliver. -/
structure LogClient where
  log_level : Int
  queue : List (Json × Bool)

/-- Log push document built in w_log_to_clients (src/listener.c:543-545):
make_response() plus the "log" text. -/
def logResponse (buf : String) : Json :=
  set_prop make_response "log" (Json.str buf)

/-- w_log_to_clients (src/listener.c:529-554): for each registered
session whose log level is not off and is at least the message level,
build a fresh response carrying the log text and enqueue it with
wake=true.  Allocation is modelled as always succeeding. -/
def w_log_to_clients (level : Int) (buf : String) (cs : List LogClient) : List LogClient :=
  cs.map fun client =>
    if client.log_level ≠ W_LOG_OFF ∧ client.log_level ≥ level then
      { client with queue := client.queue ++ [(logResponse buf, true)] }
    else client

/-- C2 (amended): w_log_to_clients appends the fresh log response
(with wake=true) to exactly those sessions whose log level is not off
and is greater than or equal to the message level; every other session
is left untouched. -/
theorem log_broadcast (level : Int) (buf : String) (cs : List LogClient) (i : Nat) :
    ((w_log_to_clients level buf cs)[i]?).map LogClient.queue
      = (cs[i]?).map fun c =>
          if c.log_level ≠ W_LOG_OFF ∧ c.log_level ≥ level
          then c.queue ++ [(logResponse buf, true)]
          else c.queue := by
  rw [w_log_to_clients, List.getElem?_map]
  cases hc : cs[i]? with
  | none => rfl
  | some c =>
    simp only [Option.map_some']
    by_cases h : c.log_level ≠ W_LOG_OFF ∧ c.log_level ≥ level
    · rw [if_pos h, if_pos h]
    · rw [if_neg h, if_neg h]

/-- Counterexample to C2 as stated: a session whose log level (debug=2)
strictly exceeds the message level (error=1) does receive the log
response, although the claim says a session whose threshold exceeds the
level receives nothing; the code enqueues when log_level >= level, not
when log_level <= level. -/
theorem log_broadcast_cex :
    (w_log_to_clients W_LOG_ERR "hello" [⟨W_LOG_DBG, []⟩]).map LogClient.queue
        = [[(logResponse "hello", true)]]
    ∧ W_LOG_ERR < W_LOG_DBG := by
  constructor
  · rfl
  · decide

/-- C6: every response document built through the response constructor
carries "version" set to the package version string: make_response
itself, every error response built by send_error_response, and the log
push responses. -/
theorem response_version (msg buf : String) :
    getProp make_response "version" = some (Json.str PACKAGE_VERSION)
    ∧ getProp (error_response_doc msg) "version" = some (Json.str PACKAGE_VERSION)
    ∧ getProp (logResponse buf) "version" = some (Json.str PACKAGE_VERSION) :=
  ⟨rfl, rfl, rfl⟩

/-- Command table from src/listener.c:371-391 (the names registered by
register_commands). -/
def command_names : List String :=
  ["find", "since", "query", "watch", "watch-list", "watch-del",
   "trigger", "trigger-list", "trigger-del", "subscribe", "unsubscribe",
   "shutdown-server", "log-level", "log", "version", "clock",
   "get-sockname", "get-pid"]

/-- Outcome of dispatch_command: either an error response is sent, or
the named handler is invoked with the session and the request. -/
inductive DispatchAction where
  | sendError (msg : String)
  | invoke (cmdName : String)

/-- dispatch_command (src/listener.c:407-436): empty or non-array
requests, a non-string element 0, and an unregistered name each produce
an error response; otherwise the handler is invoked.  The Bool is the
function return value. -/
def dispatch_command (registry : List String) (args : Json) : DispatchAction × Bool :=
  if json_array_size args = 0 then
    (.sendError "invalid command (expected an array with some elements!)", false)
  else
    match (json_array_get args 0).bind json_string_value with
    | none => (.sendError "invalid command: expected element 0 to be the command name", false)
    | some cmdName =>
      if cmdName ∈ registry then (.invoke cmdName, true)
      else (.sendError ("unknown command " ++ cmdName), false)

/-- Events the client worker can observe when the connection is
readable (src/listener.c:473-489). -/
inductive ReadEvent where
  | hangup
  | decodeError
  | wouldBlock
  | request (args : Json)

/-- Whether one worker iteration disconnects the session on the given
read outcome (src/listener.c:465-489): only hang-up and decode errors
do; a dispatched request never does (the dispatch_command return value
is ignored). -/
def client_read_disconnects : ReadEvent → Bool
  | .hangup => true
  | .decodeError => true
  | .wouldBlock => false
  | .request _ => false

/-- C5: dispatch_command sends the empty-request error exactly on a
request that is not a non-empty array, the element-0 error when element
0 is not a string, the unknown-command error when the name is
unregistered, and in exactly the remaining case invokes the handler
(returning true); a dispatched request never terminates the
connection. -/
theorem dispatch_cases (args : Json) :
    (json_array_size args = 0 →
      dispatch_command command_names args
        = (.sendError "invalid command (expected an array with some elements!)", false))
    ∧ (json_array_size args ≠ 0 →
        (json_array_get args 0).bind json_string_value = none →
        dispatch_command command_names args
          = (.sendError "invalid command: expected element 0 to be the command name", false))
    ∧ (∀ name, json_array_size args ≠ 0 →
        (json_array_get args 0).bind json_string_value = some name →
        name ∉ command_names →
        dispatch_command command_names args
          = (.sendError ("unknown command " ++ name), false))
    ∧ (∀ name, json_array_size args ≠ 0 →
        (json_array_get args 0).bind json_string_value = some name →
        name ∈ command_names →
        dispatch_command command_names args = (.invoke name, true))
    ∧ (∀ name, (dispatch_command command_names args).1 = .invoke name
        ↔ json_array_size args ≠ 0
          ∧ (json_array_get args 0).bind json_string_value = some name
          ∧ name ∈ command_names)
    ∧ client_read_disconnects (.request args) = false := by
  refine ⟨fun h0 => ?_, fun h0 h1 => ?_, fun name h0 h1 h2 => ?_, fun name h0 h1 h2 => ?_,
    fun name => ⟨fun h => ?_, fun ⟨h0, h1, h2⟩ => ?_⟩, rfl⟩
  · simp [dispatch_command, h0]
  · simp [dispatch_command, h0, h1]
  · simp [dispatch_command, h0, h1, h2]
  · simp [dispatch_command, h0, h1, h2]
  · by_cases h0 : json_array_size args = 0
    · exfalso; simp [dispatch_command, h0] at h
    · cases h1 : (json_array_get args 0).bind json_string_value with
      | none => exfalso; simp [dispatch_command, h0, h1] at h
      | some cmdName =>
        by_cases h2 : cmdName ∈ command_names
        · have he : cmdName = name := by simpa [dispatch_command, h0, h1, h2] using h
          subst he
          exact ⟨h0, rfl, h2⟩
        · exfalso; simp [dispatch_command, h0, h1, h2] at h
  · simp [dispatch_command, h0, h1, h2]

/-- Witness for dispatch_cases: a concrete unknown command and a
concrete registered command. -/
theorem dispatch_cases_witness :
    dispatch_command command_names (Json.arr [Json.str "frobnicate"])
        = (.sendError ("unknown command " ++ "frobnicate"), false)
    ∧ dispatch_command command_names (Json.arr [Json.str "version"])
        = (.invoke "version", true) :=
  ⟨(dispatch_cases (Json.arr [Json.str "frobnicate"])).2.2.1 "frobnicate"
      (by decide) rfl (by decide),
   (dispatch_cases (Json.arr [Json.str "version"])).2.2.2.1 "version"
      (by decide) rfl (by decide)⟩

/-- Decimal digit character for a value below ten. -/
def digitChar (d : Nat) : Char :=
  match d with
  | 0 => '0' | 1 => '1' | 2 => '2' | 3 => '3' | 4 => '4'
  | 5 => '5' | 6 => '6' | 7 => '7' | 8 => '8' | _ => '9'

/-- Decimal digits of n, most significant first (the rendering used by
the %d and %PRIu32 conversions of snprintf in clock_id_string). -/
def natDigits (n : Nat) : List Char :=
  if _h : n < 10 then [digitChar n]
  else natDigits (n / 10) ++ [digitChar (n % 10)]
decreasing_by exact Nat.div_lt_self (by omega) (by omega)

theorem digitChar_toNat (d : Nat) (h : d < 10) : (digitChar d).toNat = 48 + d := by
  interval_cases d <;> rfl

theorem isDig_digitChar (d : Nat) (h : d < 10) : isDig (digitChar d) = true := by
  interval_cases d <;> rfl

theorem natDigits_cons (n : Nat) : ∃ c cs, natDigits n = c :: cs ∧ isDig c = true := by
  induction n using Nat.strong_induction_on with
  | _ n ih =>
    rw [natDigits]
    by_cases h : n < 10
    · exact ⟨digitChar n, [], by simp [h], isDig_digitChar n h⟩
    · obtain ⟨c, cs, hc, hd⟩ := ih (n / 10) (Nat.div_lt_self (by omega) (by omega))
      exact ⟨c, cs ++ [digitChar (n % 10)], by simp [h, hc], hd⟩

theorem readNat_digits (n : Nat) : ∀ (acc : Nat) (rest : List Char),
    readNat acc (natDigits n ++ rest)
      = readNat (acc * 10 ^ (natDigits n).length + n) rest := by
  induction n using Nat.strong_induction_on with
  | _ n ih =>
    intro acc rest
    rw [natDigits]
    by_cases h : n < 10
    · simp only [dif_pos h, List.singleton_append, List.length_singleton]
      rw [readNat, if_pos (isDig_digitChar n h), digitChar_toNat n h]
      rw [show 10 * acc + (48 + n - 48) = acc * 10 ^ 1 + n by ring_nf; omega]
    · simp only [dif_neg h, List.append_assoc, List.singleton_append, List.length_append,
        List.length_singleton]
      rw [ih (n / 10) (Nat.div_lt_self (by omega) (by omega)) acc]
      rw [readNat, if_pos (isDig_digitChar (n % 10) (by omega)), digitChar_toNat (n % 10) (by omega)]
      rw [show 10 * (acc * 10 ^ (natDigits (n / 10)).length + n / 10) + (48 + n % 10 - 48)
            = acc * (10 ^ (natDigits (n / 10)).length * 10) + (10 * (n / 10) + n % 10) by
          ring_nf; omega]
      rw [Nat.div_add_mod, ← pow_succ]

/-- Condition under which a digit run stops: the remainder starts with a
non-digit (or is empty). -/
def headNotDig : List Char → Prop
  | [] => True
  | c :: _ => isDig c = false

theorem readNat_stop (acc : Nat) (l : List Char) (h : headNotDig l) : readNat acc l = (acc, l) := by
  cases l with
  | nil => rfl
  | cons c cs => rw [readNat, if_neg]; simp [headNotDig] at h; simp [h]

theorem readNat_digits_stop (n acc : Nat) (rest : List Char) (h : headNotDig rest) :
    readNat acc (natDigits n ++ rest) = (acc * 10 ^ (natDigits n).length + n, rest) := by
  rw [readNat_digits, readNat_stop _ _ h]

theorem isDig_not_space (c : Char) (h : isDig c = true) : isSpaceC c = false := by
  simp only [isDig, decide_eq_true_eq] at h
  simp only [isSpaceC, decide_eq_false_iff_not]
  omega

theorem skipWS_digit (c : Char) (cs : List Char) (h : isDig c = true) :
    skipWS (c :: cs) = c :: cs := by
  simp [skipWS, List.dropWhile_cons, isDig_not_space c h]

theorem readSign_digit (c : Char) (cs : List Char) (h : isDig c = true) :
    readSign (c :: cs) = (false, c :: cs) := by
  have h1 : c ≠ '-' := fun he => by subst he; exact absurd h (by decide)
  have h2 : c ≠ '+' := fun he => by subst he; exact absurd h (by decide)
  simp [readSign, h1, h2]

/-- Clock id string "c:<pid>:<ticks>", the form rendered by
clock_id_string (src/listener.c:27-36) and named by the round-trip
claims. -/
def clockString (pid ticks : Nat) : String :=
  ⟨'c' :: ':' :: (natDigits pid ++ ':' :: natDigits ticks)⟩

theorem parseClock_clockString (pid t : Nat) :
    parseClock (clockString pid t).data = some ((pid : Int), t % UINT32_MOD) := by
  obtain ⟨c1, cs1, h1, hd1⟩ := natDigits_cons pid
  obtain ⟨c2, cs2, h2, hd2⟩ := natDigits_cons t
  have hdata : (clockString pid t).data
      = 'c' :: ':' :: (natDigits pid ++ ':' :: natDigits t) := rfl
  rw [hdata, parseClock, h1, h2, List.cons_append]
  rw [skipWS_digit c1 _ hd1, readSign_digit c1 _ hd1]
  simp only [if_pos hd1]
  rw [← List.cons_append, ← h1]
  rw [show (':' :: (c2 :: cs2) : List Char) = ':' :: c2 :: cs2 from rfl]
  rw [readNat_digits_stop pid 0 (':' :: c2 :: cs2) (by simp [headNotDig]; decide)]
  simp only [Nat.zero_mul, Nat.zero_add]
  rw [skipWS_digit c2 _ hd2, readSign_digit c2 _ hd2]
  simp only [if_pos hd2]
  rw [← h2, show (natDigits t : List Char) = natDigits t ++ [] by simp]
  rw [readNat_digits_stop t 0 [] trivial]
  simp [intOfSign, u32OfSign]

theorem isCursorStr_clockString (pid t : Nat) :
    isCursorStr (clockString pid t).data = false := rfl

theorem clockIdPath_result (this_pid : Int) (s : String) (since : ClockspecQuery)
    (root : Option Root) (pid : Int) (tk : Nat)
    (hp : parseClock s.data = some (pid, tk)) :
    (clockIdPath this_pid s since root).1 = true
    ∧ (clockIdPath this_pid s since root).2.1
      = if pid = this_pid
        then { since with is_timestamp := false, ticks := tk }
        else { since with is_timestamp := false, is_fresh_instance := true, ticks := 0 } := by
  simp only [clockIdPath, hp]
  by_cases hpe : pid = this_pid
  · cases root with
    | none => simp [hpe]
    | some r =>
      by_cases htk : tk = r.ticks
      · simp [hpe, htk]
      · simp [hpe, htk]
  · simp [hpe]

theorem w_parse_clockspec_str_clockid (this_pid : Int) (root : Option Root) (s : String)
    (since : ClockspecQuery) (allow_cursor : Bool) (hnc : isCursorStr s.data = false) :
    w_parse_clockspec this_pid root (Json.str s) since allow_cursor
      = clockIdPath this_pid s since root := by
  cases root with
  | none => rfl
  | some r => simp [w_parse_clockspec, hnc]

/-- C1 (amended): parsing "c:<pid>:<ticks>" always succeeds with
is_timestamp=false; when pid equals this process's pid the ticks field
equals the parsed ticks and is_fresh_instance keeps the value the
caller supplied in the struct (the code does not write it); when pid
differs, ticks is set to 0 and is_fresh_instance to true. -/
theorem clock_roundtrip (this_pid pid t : Nat) (since : ClockspecQuery)
    (allow_cursor : Bool) (root : Option Root)
    (hpid : pid < 2 ^ 31) (ht : t < UINT32_MOD) :
    (w_parse_clockspec (this_pid : Int) root (Json.str (clockString pid t))
        since allow_cursor).1 = true
    ∧ (w_parse_clockspec (this_pid : Int) root (Json.str (clockString pid t))
        since allow_cursor).2.1
      = if pid = this_pid
        then { since with is_timestamp := false, ticks := t }
        else { since with is_timestamp := false, is_fresh_instance := true, ticks := 0 } := by
  have hp := parseClock_clockString pid t
  rw [Nat.mod_eq_of_lt ht] at hp
  rw [w_parse_clockspec_str_clockid ((this_pid : Nat) : Int) root (clockString pid t)
    since allow_cursor (isCursorStr_clockString pid t)]
  obtain ⟨h1, h2⟩ := clockIdPath_result ((this_pid : Nat) : Int) (clockString pid t)
    since root ((pid : Nat) : Int) t hp
  refine ⟨h1, ?_⟩
  rw [h2]
  by_cases hpe : pid = this_pid
  · rw [if_pos (by exact_mod_cast hpe), if_pos hpe]
  · rw [if_neg (fun hei => hpe (by exact_mod_cast hei)), if_neg hpe]

/-- Witness for clock_roundtrip: a foreign pid (2, while this process
is 1) yields ticks=0 and is_fresh_instance=true. -/
theorem clock_roundtrip_witness :
    (w_parse_clockspec ((1 : Nat) : Int) none (Json.str (clockString 2 5))
        ⟨false, 0, 0, 0, false⟩ false).2.1
      = ⟨false, 0, 0, 0, true⟩ := by
  have h := (clock_roundtrip 1 2 5 ⟨false, 0, 0, 0, false⟩ false none
    (by decide) (by decide)).2
  rw [h, if_neg (by decide)]

/-- Counterexample to C1 as stated: with this process's pid 1, parsing
"c:2:5" (a foreign pid) yields ticks 0, not the parsed 5; and parsing
"c:1:5" with a caller struct whose is_fresh_instance was already true
leaves is_fresh_instance true even though pid equals this pid, since the
code never writes the field on that path. -/
theorem clock_roundtrip_cex :
    (w_parse_clockspec 1 none (Json.str "c:2:5")
        ⟨false, 0, 0, 0, false⟩ false).2.1.ticks ≠ 5
    ∧ (w_parse_clockspec 1 none (Json.str "c:1:5")
        ⟨false, 0, 0, 0, true⟩ false).2.1.is_fresh_instance ≠ false := by
  constructor <;> decide

/-- C4 (amended): with the clockspec "c:<pid>:<t>" naming this process
and t equal to the root tick, the root tick becomes (t + 1) mod 2^32
(equal to t + 1 whenever t + 1 < 2^32); when the referenced ticks u
differ from the root tick, the root state is returned unchanged. -/
theorem tick_bump (pid t : Nat) (since : ClockspecQuery) (r : Root) (allow_cursor : Bool)
    (ht : r.ticks = t) (hlt : t < UINT32_MOD) :
    (w_parse_clockspec (pid : Int) (some r) (Json.str (clockString pid t))
        since allow_cursor).2.2
      = some { r with ticks := (t + 1) % UINT32_MOD }
    ∧ (∀ u : Nat, u < UINT32_MOD → u ≠ t →
        (w_parse_clockspec (pid : Int) (some r) (Json.str (clockString pid u))
            since allow_cursor).2.2
          = some r) := by
  constructor
  · have hp := parseClock_clockString pid t
    rw [Nat.mod_eq_of_lt hlt] at hp
    rw [w_parse_clockspec_str_clockid ((pid : Nat) : Int) (some r) (clockString pid t)
      since allow_cursor (isCursorStr_clockString pid t)]
    subst ht
    simp [clockIdPath, hp]
  · intro u hu hne
    have hp := parseClock_clockString pid u
    rw [Nat.mod_eq_of_lt hu] at hp
    rw [w_parse_clockspec_str_clockid ((pid : Nat) : Int) (some r) (clockString pid u)
      since allow_cursor (isCursorStr_clockString pid u)]
    have hner : u ≠ r.ticks := fun he => hne (by rw [he, ht])
    simp [clockIdPath, hp, hner]

/-- Witness for tick_bump: root tick 5 with clockspec "c:1:5" for pid 1
bumps the root tick to 6 mod 2^32, and ticks 7 leaves it at 5. -/
theorem tick_bump_witness :
    (w_parse_clockspec ((1 : Nat) : Int) (some ⟨5, fun _ => none⟩)
        (Json.str (clockString 1 5)) ⟨false, 0, 0, 0, false⟩ false).2.2
      = some ⟨(5 + 1) % UINT32_MOD, fun _ => none⟩
    ∧ (w_parse_clockspec ((1 : Nat) : Int) (some ⟨5, fun _ => none⟩)
        (Json.str (clockString 1 7)) ⟨false, 0, 0, 0, false⟩ false).2.2
      = some ⟨5, fun _ => none⟩ :=
  ⟨(tick_bump 1 5 ⟨false, 0, 0, 0, false⟩ ⟨5, fun _ => none⟩ false rfl (by decide)).1,
   (tick_bump 1 5 ⟨false, 0, 0, 0, false⟩ ⟨5, fun _ => none⟩ false rfl (by decide)).2
     7 (by decide) (by decide)⟩

/-- Counterexample to C4 as stated: at the uint32_t boundary, root tick
4294967295 with a matching clockspec wraps the root tick to 0, not to
t + 1 = 4294967296. -/
theorem tick_bump_cex :
    ((w_parse_clockspec 1 (some ⟨4294967295, fun _ => none⟩)
        (Json.str "c:1:4294967295") ⟨false, 0, 0, 0, false⟩ false).2.2).map Root.ticks
      = some 0
    ∧ (0 : Nat) ≠ 4294967295 + 1 := by
  constructor
  · rfl
  · decide

/-- Cursor arm of w_parse_clockspec (src/listener.c:180-210) as one
equation: the lookup decides freshness and the returned ticks; the root
tick is pre-incremented (uint32_t, so mod 2^32) and stored against the
cursor name. -/
theorem w_parse_clockspec_cursor_absent (this_pid : Int) (r : Root) (s : String)
    (since : ClockspecQuery) (rest : List Char) (hd : s.data = 'n' :: ':' :: rest)
    (habsent : r.cursors s = none) :
    w_parse_clockspec this_pid (some r) (Json.str s) since true
      = (true,
         { since with is_timestamp := false, is_fresh_instance := true, ticks := 0 },
         some { ticks := (r.ticks + 1) % UINT32_MOD,
                cursors := fun n =>
                  if n = s then some ((r.ticks + 1) % UINT32_MOD) else r.cursors n }) := by
  have hc : isCursorStr s.data = true := by rw [hd]; rfl
  simp [w_parse_clockspec, hc, habsent]

theorem w_parse_clockspec_cursor_present (this_pid : Int) (r : Root) (s : String)
    (since : ClockspecQuery) (rest : List Char) (v : Nat)
    (hd : s.data = 'n' :: ':' :: rest) (hcur : r.cursors s = some v) :
    w_parse_clockspec this_pid (some r) (Json.str s) since true
      = (true,
         { since with is_timestamp := false, is_fresh_instance := false, ticks := v % UINT32_MOD },
         some { ticks := (r.ticks + 1) % UINT32_MOD,
                cursors := fun n =>
                  if n = s then some ((r.ticks + 1) % UINT32_MOD) else r.cursors n }) := by
  have hc : isCursorStr s.data = true := by rw [hd]; rfl
  simp [w_parse_clockspec, hc, hcur]

/-- Iterated w_parse_clockspec calls on the same cursor string against
the same root, nothing else touching the root in between: collects the
(result, ticks, is_fresh_instance) triple of each call and the final
root state. -/
def cursor_calls (this_pid : Int) (s : String) :
    ClockspecQuery → Root → Nat → List (Bool × Nat × Bool) × Root
  | _, r, 0 => ([], r)
  | since, r, n + 1 =>
    let res := w_parse_clockspec this_pid (some r) (Json.str s) since true
    let r2 := res.2.2.getD r
    let rest := cursor_calls this_pid s res.2.1 r2 n
    ((res.1, res.2.1.ticks, res.2.1.is_fresh_instance) :: rest.1, rest.2)

theorem cursor_calls_steady (this_pid : Int) (s : String) (rest0 : List Char)
    (hd : s.data = 'n' :: ':' :: rest0) :
    ∀ (m : Nat) (since : ClockspecQuery) (r : Root),
      r.cursors s = some r.ticks → r.ticks + m < UINT32_MOD →
      (cursor_calls this_pid s since r m).1
        = (List.range' r.ticks m).map (fun v => (true, v, false)) := by
  intro m
  induction m with
  | zero => intro since r _ _; rfl
  | succ k ih =>
    intro since r hcur hbound
    have hmod : r.ticks % UINT32_MOD = r.ticks := Nat.mod_eq_of_lt (by omega)
    have hm1 : (r.ticks + 1) % UINT32_MOD = r.ticks + 1 := Nat.mod_eq_of_lt (by omega)
    have step := w_parse_clockspec_cursor_present this_pid r s since rest0 r.ticks hd hcur
    rw [hm1, hmod] at step
    simp only [cursor_calls, step, Option.getD_some]
    rw [ih _ { ticks := r.ticks + 1,
               cursors := fun n => if n = s then some (r.ticks + 1) else r.cursors n }
        (by simp) (by simp; omega)]
    rw [List.range'_succ]
    simp

/-- C3 (amended): starting from a root whose cursor table does not yet
contain the cursor name, with no wrap of the uint32_t tick counter
(root.ticks + number of calls < 2^32), every call succeeds, the first
call reports is_fresh_instance=true with ticks=0, and the ticks values
returned by successive calls are strictly increasing. -/
theorem cursor_monotonic (this_pid : Int) (s : String) (rest0 : List Char)
    (since : ClockspecQuery) (r : Root) (n : Nat)
    (hd : s.data = 'n' :: ':' :: rest0)
    (habsent : r.cursors s = none)
    (hbound : r.ticks + n < UINT32_MOD) :
    (∀ x ∈ (cursor_calls this_pid s since r n).1, x.1 = true)
    ∧ (0 < n → (cursor_calls this_pid s since r n).1.head? = some (true, 0, true))
    ∧ ((cursor_calls this_pid s since r n).1.map (fun x => x.2.1)).Pairwise (· < ·) := by
  cases n with
  | zero =>
    refine ⟨?_, ?_, ?_⟩
    · intro x hx; simp [cursor_calls] at hx
    · intro h; omega
    · simp [cursor_calls]
  | succ k =>
    have hm1 : (r.ticks + 1) % UINT32_MOD = r.ticks + 1 := Nat.mod_eq_of_lt (by omega)
    have step := w_parse_clockspec_cursor_absent this_pid r s since rest0 hd habsent
    rw [hm1] at step
    simp only [cursor_calls, step, Option.getD_some]
    rw [cursor_calls_steady this_pid s rest0 hd k _
        { ticks := r.ticks + 1,
          cursors := fun n2 => if n2 = s then some (r.ticks + 1) else r.cursors n2 }
        (by simp) (by simp; omega)]
    refine ⟨?_, fun _ => rfl, ?_⟩
    · intro x hx
      simp only [List.mem_cons, List.mem_map] at hx
      rcases hx with rfl | ⟨v, _, rfl⟩ <;> rfl
    · rw [List.map_cons, List.map_map, List.pairwise_cons]
      constructor
      · intro b hb
        simp only [List.mem_map, Function.comp] at hb
        obtain ⟨v, hv, rfl⟩ := hb
        show (0 : Nat) < v
        have := List.mem_range'_1.mp hv
        omega
      · rw [List.pairwise_map]
        refine (List.pairwise_lt_range' (r.ticks + 1) k).imp ?_
        intro a b hab
        simpa using hab

/-- Witness for cursor_monotonic: three calls on cursor "n:X" against a
fresh root report fresh-then-strictly-increasing ticks. -/
theorem cursor_monotonic_witness :
    (cursor_calls 0 "n:X" ⟨false, 0, 0, 0, false⟩ ⟨0, fun _ => none⟩ 3).1.head?
        = some (true, 0, true)
    ∧ ((cursor_calls 0 "n:X" ⟨false, 0, 0, 0, false⟩ ⟨0, fun _ => none⟩ 3).1.map
        (fun x => x.2.1)).Pairwise (· < ·) :=
  ⟨(cursor_monotonic 0 "n:X" ['X'] ⟨false, 0, 0, 0, false⟩ ⟨0, fun _ => none⟩ 3
      rfl rfl (by decide)).2.1 (by decide),
   (cursor_monotonic 0 "n:X" ['X'] ⟨false, 0, 0, 0, false⟩ ⟨0, fun _ => none⟩ 3
      rfl rfl (by decide)).2.2⟩

/-- Counterexample to C3 as stated: at the uint32_t boundary
(root.ticks = 4294967295) two calls on a fresh cursor return ticks 0
and then 0 again, which is not strictly increasing; and when the cursor
is already present in the root's table (stored tick 3), the first call
of a sequence reports is_fresh_instance=false, not true. -/
theorem cursor_monotonic_cex :
    ((cursor_calls 0 "n:X" ⟨false, 0, 0, 0, false⟩
        ⟨4294967295, fun _ => none⟩ 2).1.map (fun x => x.2.1)) = [0, 0]
    ∧ ¬ ([0, 0] : List Nat).Pairwise (· < ·)
    ∧ ((cursor_calls 0 "n:X" ⟨false, 0, 0, 0, false⟩
        ⟨7, fun n2 => if n2 = "n:X" then some 3 else none⟩ 1).1.map
          (fun x => x.2.2)) = [false] :=
  ⟨rfl, by decide, rfl⟩

/-- Per-client outbound queue state (struct watchman_client head/tail
plus the heap of watchman_client_response nodes): mem maps an allocated
node address to its next pointer, pay to the response document the node
owns. -/
structure QState where
  mem : Nat → Option (Option Nat)
  pay : Nat → Option Json
  head : Option Nat
  tail : Option Nat

/-- enqueue_response (src/listener.c:58-81): calloc a node (alloc is
its address, none on allocation failure), store the document, link the
node after tail (or as the sole node) and make it the new tail; the
ping byte goes to the wakeup pipe, not the queue.  Returns false, with
the state unchanged, exactly on allocation failure. -/
def enqueue_response (q : QState) (doc : Json) (alloc : Option Nat) (ping : Bool) :
    Bool × QState :=
  match alloc with
  | none => (false, q)
  | some node =>
    let mem1 : Nat → Option (Option Nat) := fun a => if a = node then some none else q.mem a
    let pay1 : Nat → Option Json := fun a => if a = node then some doc else q.pay a
    match q.tail with
    | some t =>
      (true, { mem := fun a => if a = t then some (some node) else mem1 a,
               pay := pay1, head := q.head, tail := some node })
    | none =>
      (true, { mem := mem1, pay := pay1, head := some node, tail := some node })

/-- The worker dequeue of the head response (src/listener.c:497-523):
pop head, clear tail exactly when the popped node was the tail, then
(after writing) release the document and free the node. -/
def dequeue_response (q : QState) : Option Nat × QState :=
  match q.head with
  | none => (none, q)
  | some h =>
    (some h,
     { mem := fun a => if a = h then none else q.mem a,
       pay := fun a => if a = h then none else q.pay a,
       head := (q.mem h).getD none,
       tail := if q.tail = some h then none else q.tail })

/-- send_and_dispose_response (src/listener.c:83-91): enqueue without a
ping; on failure json_decref the document.  The Bool records whether
the document was released. -/
def send_and_dispose_response (q : QState) (doc : Json) (alloc : Option Nat) :
    QState × Bool :=
  match enqueue_response q doc alloc false with
  | (true, q2) => (q2, false)
  | (false, q2) => (q2, true)

/-- The node addresses l form the null-terminated next chain of the
queue in memory m. -/
def linksOK (m : Nat → Option (Option Nat)) : List Nat → Prop
  | [] => True
  | [a] => m a = some none
  | a :: b :: rest => m a = some (some b) ∧ linksOK m (b :: rest)

/-- The queue state represents the node-address list l: head is the
first, tail the last, the next chain links them in order ending in
null, and no address repeats. -/
def QueueRepr (q : QState) (l : List Nat) : Prop :=
  q.head = l.head? ∧ q.tail = l.getLast? ∧ linksOK q.mem l ∧ l.Nodup

/-- Path from a to b following next pointers in m. -/
def followsTo (m : Nat → Option (Option Nat)) : Nat → List Nat → Nat → Prop
  | a, [], b => a = b
  | a, c :: cs, b => m a = some (some c) ∧ followsTo m c cs b

/-- b is reachable from a by following next pointers in m. -/
def reaches (m : Nat → Option (Option Nat)) (a b : Nat) : Prop :=
  ∃ steps, followsTo m a steps b

theorem linksOK_isSome (m : Nat → Option (Option Nat)) :
    ∀ l, linksOK m l → ∀ a ∈ l, (m a).isSome := by
  intro l
  induction l with
  | nil => intro _ a ha; exact absurd ha (List.not_mem_nil a)
  | cons x xs ih =>
    intro hl a ha
    cases xs with
    | nil =>
      have hx : m x = some none := hl
      have hax : a = x := List.mem_singleton.mp ha
      rw [hax, hx]; rfl
    | cons y ys =>
      obtain ⟨hx, hrest⟩ := hl
      rcases List.mem_cons.mp ha with rfl | hmem
      · rw [hx]; rfl
      · exact ih hrest a hmem

theorem linksOK_congr (m m2 : Nat → Option (Option Nat)) :
    ∀ l, (∀ a ∈ l, m2 a = m a) → linksOK m l → linksOK m2 l := by
  intro l
  induction l with
  | nil => intro _ _; trivial
  | cons x xs ih =>
    intro hagree hl
    cases xs with
    | nil =>
      show m2 x = some none
      rw [hagree x (List.mem_singleton.mpr rfl)]
      exact hl
    | cons y ys =>
      obtain ⟨hx, hrest⟩ := hl
      refine ⟨?_, ih (fun a ha => hagree a (List.mem_cons_of_mem x ha)) hrest⟩
      rw [hagree x (List.mem_cons_self x (y :: ys))]
      exact hx

theorem linksOK_snoc (m : Nat → Option (Option Nat)) (x : Nat) :
    ∀ l t, linksOK m l → l.getLast? = some t → x ∉ l → l.Nodup →
      linksOK (fun a => if a = t then some (some x) else if a = x then some none else m a)
        (l ++ [x]) := by
  intro l
  induction l with
  | nil => intro t _ hlast _ _; simp at hlast
  | cons c cs ih =>
    intro t hl hlast hx hnd
    cases cs with
    | nil =>
      have hct : c = t := by simpa using hlast
      subst hct
      have hxc : x ≠ c := fun he => hx (List.mem_singleton.mpr he)
      refine ⟨?_, ?_⟩
      · show (if c = c then some (some x) else _) = some (some x)
        rw [if_pos rfl]
      · show (if x = c then some (some x) else if x = x then some none else m x) = some none
        rw [if_neg hxc, if_pos rfl]
    | cons d ds =>
      obtain ⟨hc, hrest⟩ := hl
      have hlast2 : (d :: ds).getLast? = some t := by
        rwa [List.getLast?_cons_cons] at hlast
      have hxcons : x ∉ d :: ds := fun hmem => hx (List.mem_cons_of_mem c hmem)
      have hnd2 : (d :: ds).Nodup := (List.nodup_cons.mp hnd).2
      have hct : c ≠ t := fun he =>
        (List.nodup_cons.mp hnd).1 (he ▸ List.mem_of_getLast?_eq_some hlast2)
      have hcx : c ≠ x := fun he => hx (he ▸ List.mem_cons_self c (d :: ds))
      refine ⟨?_, ih t hrest hlast2 hxcons hnd2⟩
      show (if c = t then _ else if c = x then _ else m c) = some (some d)
      rw [if_neg hct, if_neg hcx]
      exact hc

theorem linksOK_reaches (m : Nat → Option (Option Nat)) :
    ∀ l a b, linksOK m l → l.head? = some a → l.getLast? = some b → reaches m a b := by
  intro l
  induction l with
  | nil => intro a b _ hh _; simp at hh
  | cons c cs ih =>
    intro a b hl hh hlast
    have hca : c = a := by simpa using hh
    subst hca
    cases cs with
    | nil =>
      have hcb : c = b := by simpa using hlast
      subst hcb
      exact ⟨[], rfl⟩
    | cons d ds =>
      obtain ⟨hc, hrest⟩ := hl
      have hlast2 : (d :: ds).getLast? = some b := by
        rwa [List.getLast?_cons_cons] at hlast
      obtain ⟨steps, hsteps⟩ := ih d b hrest rfl hlast2
      exact ⟨d :: steps, hc, hsteps⟩

/-- C7: in any queue state representing a node list, head is null iff
tail is null; when both are set, the tail node is reachable from the
head node by following next pointers; and the representation (hence the
invariant) is preserved by enqueue_response appending a freshly
allocated node at the tail and by the worker dequeue of the head node,
which clears tail exactly when the popped node was the tail. -/
theorem queue_invariant (q : QState) (l : List Nat) (h : QueueRepr q l) :
    (q.head = none ↔ q.tail = none)
    ∧ (∀ a b, q.head = some a → q.tail = some b → reaches q.mem a b)
    ∧ (∀ doc node ping, q.mem node = none →
        QueueRepr (enqueue_response q doc (some node) ping).2 (l ++ [node]))
    ∧ QueueRepr (dequeue_response q).2 l.tail := by
  obtain ⟨hh, ht, hlinks, hnd⟩ := h
  refine ⟨?_, ?_, ?_, ?_⟩
  · constructor
    · intro h0
      rw [hh] at h0
      cases l with
      | nil => rw [ht]; rfl
      | cons c cs => simp at h0
    · intro h0
      rw [ht] at h0
      cases l with
      | nil => rw [hh]; rfl
      | cons c cs => simp [List.getLast?_eq_none_iff] at h0
  · intro a b ha hb
    rw [hh] at ha
    rw [ht] at hb
    exact linksOK_reaches q.mem l a b hlinks ha hb
  · intro doc node ping hfresh
    have hxl : node ∉ l := fun hmem => by
      have hs := linksOK_isSome q.mem l hlinks node hmem
      rw [hfresh] at hs
      simp at hs
    cases l with
    | nil =>
      have ht0 : q.tail = none := by rw [ht]; rfl
      simp only [enqueue_response, ht0]
      refine ⟨rfl, rfl, ?_, List.nodup_singleton node⟩
      show (if node = node then some none else q.mem node) = some none
      rw [if_pos rfl]
    | cons c cs =>
      obtain ⟨t, ht2⟩ : ∃ t, (c :: cs).getLast? = some t := by
        cases hgl : (c :: cs).getLast? with
        | none => simp [List.getLast?_eq_none_iff] at hgl
        | some t => exact ⟨t, rfl⟩
      have htq : q.tail = some t := by rw [ht]; exact ht2
      simp only [enqueue_response, htq]
      refine ⟨?_, ?_, ?_, ?_⟩
      · rw [hh]; rfl
      · rw [List.getLast?_concat]
      · exact linksOK_snoc q.mem node (c :: cs) t hlinks ht2 hxl hnd
      · rw [List.nodup_append]
        exact ⟨hnd, List.nodup_singleton node,
          fun a ha hb => hxl ((List.mem_singleton.mp hb) ▸ ha)⟩
  · cases l with
    | nil =>
      have hh0 : q.head = none := by rw [hh]; rfl
      simp only [dequeue_response, hh0]
      exact ⟨hh, ht, hlinks, hnd⟩
    | cons c cs =>
      have hh0 : q.head = some c := by rw [hh]; rfl
      simp only [dequeue_response, hh0]
      cases cs with
      | nil =>
        have hmemc : q.mem c = some none := hlinks
        have htc : q.tail = some c := by rw [ht]; rfl
        refine ⟨?_, ?_, trivial, List.nodup_nil⟩
        · show (q.mem c).getD none = ([] : List Nat).head?
          rw [hmemc]; rfl
        · show (if q.tail = some c then none else q.tail) = ([] : List Nat).getLast?
          rw [if_pos htc]; rfl
      | cons d ds =>
        obtain ⟨hc, hrest⟩ := hlinks
        have hnotin : c ∉ d :: ds := (List.nodup_cons.mp hnd).1
        have hnd2 : (d :: ds).Nodup := (List.nodup_cons.mp hnd).2
        obtain ⟨t, ht2⟩ : ∃ t, (d :: ds).getLast? = some t := by
          cases hgl : (d :: ds).getLast? with
          | none => simp [List.getLast?_eq_none_iff] at hgl
          | some t => exact ⟨t, rfl⟩
        have htq : q.tail = some t := by
          rw [ht, List.getLast?_cons_cons]; exact ht2
        have hct : c ≠ t := fun he =>
          hnotin (he ▸ List.mem_of_getLast?_eq_some ht2)
        refine ⟨?_, ?_, ?_, hnd2⟩
        · show (q.mem c).getD none = (d :: ds).head?
          rw [hc]; rfl
        · show (if q.tail = some c then none else q.tail) = (d :: ds).getLast?
          rw [if_neg (fun he => hct (by rw [htq] at he; injection he with he2; exact he2.symm)),
            htq, ht2]
        · refine linksOK_congr q.mem (fun a => if a = c then none else q.mem a) (d :: ds)
            (fun a ha => ?_) hrest
          show (if a = c then none else q.mem a) = q.mem a
          exact if_neg fun (he : a = c) => hnotin (he ▸ ha)
  
/-- Witness for queue_invariant: enqueueing one node into the empty
queue yields a representation of the one-node list. -/
theorem queue_invariant_witness :
    QueueRepr (enqueue_response ⟨fun _ => none, fun _ => none, none, none⟩
        (Json.str "x") (some 0) false).2 [0] :=
  (queue_invariant ⟨fun _ => none, fun _ => none, none, none⟩ []
      ⟨rfl, rfl, trivial, List.nodup_nil⟩).2.2.1 (Json.str "x") 0 false rfl

/-- C8: enqueue_response fails only when allocation fails, in which
case the queue is untouched and the document stays with the caller; it
succeeds whenever allocation succeeds; send_and_dispose_response
releases the document exactly when the enqueue failed, enqueues nothing
toward the peer in that case, and otherwise hands the document to the
queue (the document is stored in the new node). -/
theorem enqueue_failure (q : QState) (doc : Json) (ping : Bool) :
    enqueue_response q doc none ping = (false, q)
    ∧ (∀ node, (enqueue_response q doc (some node) ping).1 = true)
    ∧ send_and_dispose_response q doc none = (q, true)
    ∧ (∀ node, (send_and_dispose_response q doc (some node)).2 = false
        ∧ (send_and_dispose_response q doc (some node)).1
            = (enqueue_response q doc (some node) false).2
        ∧ ((enqueue_response q doc (some node) ping).2).pay node = some doc) := by
  refine ⟨rfl, ?_, rfl, ?_⟩
  · intro node
    cases htq : q.tail <;> simp [enqueue_response, htq]
  · intro node
    refine ⟨?_, ?_, ?_⟩ <;>
      cases htq : q.tail <;>
        simp [enqueue_response, send_and_dispose_response, htq]
